import Mathlib

/-!
Verification of the fake IMAP server in `tests/fake_imap/` of the
protonmail-client repository.  The mailbox data model (`mailbox.rs`),
the command handlers (`handlers/expunge.rs`, `uid_copy.rs`,
`uid_search.rs`, `uid_store.rs`, `uid_fetch.rs`, `select.rs`) and the
connection dispatch loop (`server.rs`) are shallowly embedded as pure
Lean functions; the untagged responses a handler writes to the socket
are modelled as the list of emitted lines / byte chunks.
-/

namespace FakeImap

/-- Embeds `TestEmail` from `tests/fake_imap/mailbox.rs`.  `raw` is the
opaque byte payload (`Vec<u8>` in the source), modelled as a list of
bytes. -/
structure TestEmail where
  uid : Nat
  seen : Bool
  deleted : Bool
  raw : List Nat
deriving DecidableEq

/-- Embeds `Folder` from `tests/fake_imap/mailbox.rs`. -/
structure Folder where
  name : String
  emails : List TestEmail
deriving DecidableEq

/-- Embeds `Mailbox` from `tests/fake_imap/mailbox.rs`. -/
structure Mailbox where
  folders : List Folder
deriving DecidableEq

/-- ASCII lower-casing of one character, as used by Rust's
`str::eq_ignore_ascii_case`. -/
def asciiLowerChar (c : Char) : Char :=
  if 'A' ≤ c ∧ c ≤ 'Z' then Char.ofNat (c.toNat + 32) else c

/-- Embeds Rust's `str::eq_ignore_ascii_case`. -/
def eqIgnoreAsciiCase (a b : String) : Bool :=
  a.data.map asciiLowerChar == b.data.map asciiLowerChar

/-- The folder-name predicate used by `Mailbox::get_folder` and
`Mailbox::get_folder_mut` in `mailbox.rs`: INBOX is matched
case-insensitively, every other name is an exact match. -/
def folderPred (name : String) (f : Folder) : Bool :=
  if eqIgnoreAsciiCase name "INBOX" then eqIgnoreAsciiCase f.name "INBOX"
  else f.name == name

/-- Embeds `Mailbox::get_folder` from `mailbox.rs` (first folder whose
name matches). -/
def Mailbox.get_folder (mb : Mailbox) (name : String) : Option Folder :=
  mb.folders.find? (folderPred name)

/-! ### EXPUNGE (`handlers/expunge.rs`) -/

/-- Embeds the `deleted_indices` computation of `handle_expunge`
(`expunge.rs`): indices of emails carrying the deleted flag, via
`iter().enumerate().filter(..).map(|(i, _)| i)`. -/
def deleted_indices (emails : List TestEmail) : List Nat :=
  ((emails.enum.filter fun p => p.2.deleted).map Prod.fst)

/-- Embeds the `seqs` loop of `handle_expunge`: the k-th removed
message at original index `idx` is reported with sequence number
`idx + 1 - k` (`seq = idx + 1 - offset` in the source). -/
def expunge_seqs (emails : List TestEmail) : List Nat :=
  (deleted_indices emails).enum.map fun p => p.2 + 1 - p.1

/-- Embeds the removal loop of `handle_expunge`: remove the collected
indices back to front (`for idx in deleted_indices.iter().rev()`). -/
def remove_indices_rev (emails : List TestEmail) (idxs : List Nat) :
    List TestEmail :=
  idxs.reverse.foldl (fun acc i => acc.eraseIdx i) emails

/-- Embeds the mailbox mutation and emitted sequence numbers of
`handle_expunge` (`expunge.rs` lines 39-67): the updated folder and
the list of `* <seq> EXPUNGE` sequence numbers, in emission order. -/
def handle_expunge (f : Folder) : Folder × List Nat :=
  ({ f with emails := remove_indices_rev f.emails (deleted_indices f.emails) },
   expunge_seqs f.emails)

/-! #### Helper lemmas for EXPUNGE -/

/-- Variant of `deleted_indices` starting the enumeration at `n`. -/
def deletedIdxFrom (n : Nat) (emails : List TestEmail) : List Nat :=
  ((emails.enumFrom n).filter fun p => p.2.deleted).map Prod.fst

theorem deleted_indices_eq_from (emails : List TestEmail) :
    deleted_indices emails = deletedIdxFrom 0 emails := rfl

theorem deletedIdxFrom_nil (n : Nat) : deletedIdxFrom n [] = [] := rfl

theorem deletedIdxFrom_cons (n : Nat) (e : TestEmail) (es : List TestEmail) :
    deletedIdxFrom n (e :: es) =
      if e.deleted then n :: deletedIdxFrom (n + 1) es
      else deletedIdxFrom (n + 1) es := by
  cases h : e.deleted <;> simp [deletedIdxFrom, List.enumFrom, List.filter, h]

theorem deletedIdxFrom_shift (es : List TestEmail) (n : Nat) :
    deletedIdxFrom (n + 1) es = (deletedIdxFrom n es).map (· + 1) := by
  induction es generalizing n with
  | nil => rfl
  | cons e es ih =>
    rw [deletedIdxFrom_cons, deletedIdxFrom_cons]
    cases h : e.deleted <;> simp [ih]

theorem foldl_eraseIdx_map_succ (is : List Nat) (x : TestEmail)
    (xs : List TestEmail) :
    (is.map (· + 1)).foldl (fun acc i => acc.eraseIdx i) (x :: xs) =
      x :: is.foldl (fun acc i => acc.eraseIdx i) xs := by
  induction is generalizing xs with
  | nil => rfl
  | cons j js ih => simpa [List.eraseIdx] using ih (xs.eraseIdx j)

theorem remove_deleted_eq_filter (l : List TestEmail) :
    remove_indices_rev l (deleted_indices l) =
      l.filter (fun e => !e.deleted) := by
  rw [deleted_indices_eq_from]
  unfold remove_indices_rev
  induction l with
  | nil => rfl
  | cons e es ih =>
    rw [deletedIdxFrom_cons]
    cases h : e.deleted with
    | true =>
      rw [if_pos rfl, deletedIdxFrom_shift, List.reverse_cons,
        List.foldl_append, ← List.map_reverse, foldl_eraseIdx_map_succ, ih]
      simp [List.filter, h, List.eraseIdx]
    | false =>
      rw [if_neg (by simp), deletedIdxFrom_shift, ← List.map_reverse,
        foldl_eraseIdx_map_succ, ih]
      simp [List.filter, h]

/-- The reported sequence numbers, as a recursion over the index list:
the entry at offset `k` for original index `i` is `i + 1 - k`. -/
def seqsFrom (k : Nat) : List Nat → List Nat
  | [] => []
  | i :: is => (i + 1 - k) :: seqsFrom (k + 1) is

theorem enumFrom_map_seq (idxs : List Nat) (k : Nat) :
    (idxs.enumFrom k).map (fun p => p.2 + 1 - p.1) = seqsFrom k idxs := by
  induction idxs generalizing k with
  | nil => rfl
  | cons i is ih => simp [List.enumFrom, seqsFrom, ih]

theorem expunge_seqs_eq (emails : List TestEmail) :
    expunge_seqs emails = seqsFrom 0 (deleted_indices emails) := by
  unfold expunge_seqs
  exact enumFrom_map_seq (deleted_indices emails) 0

theorem seqsFrom_length (k : Nat) (is : List Nat) :
    (seqsFrom k is).length = is.length := by
  induction is generalizing k with
  | nil => rfl
  | cons i is ih => simp [seqsFrom, ih]

theorem seqsFrom_get? (is : List Nat) (k j : Nat) :
    (seqsFrom k is).get? j = (is.get? j).map (fun i => i + 1 - (k + j)) := by
  induction is generalizing k j with
  | nil => simp [seqsFrom]
  | cons i is ih =>
    cases j with
    | zero => simp [seqsFrom]
    | succ j =>
      simp only [seqsFrom, List.get?]
      rw [ih]
      have hkj : k + 1 + j = k + (j + 1) := by omega
      rw [hkj]

theorem deletedIdxFrom_length (n : Nat) (l : List TestEmail) :
    (deletedIdxFrom n l).length = (l.filter fun e => e.deleted).length := by
  induction l generalizing n with
  | nil => rfl
  | cons e es ih =>
    rw [deletedIdxFrom_cons]
    cases h : e.deleted <;> simp [List.filter, h, ih]

/-- Claim C1: EXPUNGE removes exactly the messages whose deleted flag is
true (the surviving sequence is the filter of the original), emits one
removal notice per removed message, the k-th notice (0-based) for the
message at original 0-based index `i` reporting sequence number
`i + 1 - k`, and the remaining messages keep their UIDs. -/
theorem expunge_correct (f : Folder) (k : Nat) :
    (handle_expunge f).1.emails = f.emails.filter (fun e => !e.deleted) ∧
    (handle_expunge f).1.name = f.name ∧
    (handle_expunge f).2.length =
      (f.emails.filter fun e => e.deleted).length ∧
    (handle_expunge f).2.get? k =
      ((deleted_indices f.emails).get? k).map (fun i => i + 1 - k) ∧
    (handle_expunge f).1.emails.map TestEmail.uid =
      (f.emails.filter fun e => !e.deleted).map TestEmail.uid := by
  refine ⟨remove_deleted_eq_filter f.emails, rfl, ?_, ?_, ?_⟩
  · rw [show (handle_expunge f).2 = expunge_seqs f.emails from rfl,
      expunge_seqs_eq, seqsFrom_length, deleted_indices_eq_from,
      deletedIdxFrom_length]
  · rw [show (handle_expunge f).2 = expunge_seqs f.emails from rfl,
      expunge_seqs_eq, seqsFrom_get?]
    simp
  · rw [show (handle_expunge f).1.emails =
        f.emails.filter (fun e => !e.deleted) from
      remove_deleted_eq_filter f.emails]

/-! ### UID SEARCH (`handlers/uid_search.rs`)

The chrono RFC 2822 date parser and UTF-8 validation are external
collaborators of the repository (spec §1); they are abstracted as
function parameters `rfc2822 : String → Option Int` (the parsed date,
as a point of a linear date order) and `utf8 : List Nat → Option String`
(`std::str::from_utf8(..).ok()`). -/

/-- Split a character sequence at `'\n'` (always returns at least one
segment, like Rust's `split('\n')`). -/
def splitNl : List Char → List (List Char)
  | [] => [[]]
  | c :: rest =>
    if c = '\n' then [] :: splitNl rest
    else
      match splitNl rest with
      | [] => [[c]]
      | seg :: segs => (c :: seg) :: segs

/-- Strip one trailing carriage return, as Rust's `str::lines` does for
segments terminated by `\n`. -/
def stripCrChars (l : List Char) : List Char :=
  match l.reverse with
  | '\r' :: rest => rest.reverse
  | _ => l

/-- Helper for `rustLines`: segments followed by `\n` lose a trailing
`\r`; the last segment keeps a bare `\r` and is dropped when empty
(optional final line ending). -/
def rustLinesAux : List (List Char) → List (List Char)
  | [] => []
  | [last] => if last.isEmpty then [] else [last]
  | seg :: rest => stripCrChars seg :: rustLinesAux rest

/-- Embeds Rust's `str::lines` as used by `parse_email_date`, at the
character-sequence level. -/
def rustLines (s : String) : List (List Char) :=
  rustLinesAux (splitNl s.data)

/-- Embeds Rust's `str::trim` at the character-sequence level. -/
def trimChars (l : List Char) : List Char :=
  ((l.dropWhile Char.isWhitespace).reverse.dropWhile Char.isWhitespace).reverse

/-- Does the character sequence start with the given pattern
(Rust's `str::starts_with`, matching the `strip_prefix("Date:")` test)? -/
def charsStartWith : List Char → List Char → Bool
  | [], _ => true
  | _ :: _, [] => false
  | p :: ps, c :: cs => p == c && charsStartWith ps cs

/-- The header scan of `parse_email_date` (`uid_search.rs`): trim each
line, and on the first line starting with `Date:` return the parse of
the trimmed remainder (even when that parse fails). -/
def findDateLine (rfc2822 : String → Option Int) :
    List (List Char) → Option Int
  | [] => none
  | line :: rest =>
    let t := trimChars line
    if charsStartWith "Date:".data t then
      rfc2822 (String.mk (trimChars (t.drop 5)))
    else findDateLine rfc2822 rest

/-- Embeds `parse_email_date` (`uid_search.rs` lines 82-95): UTF-8
decode the raw payload, scan its lines for a `Date:` header, parse it
with the external RFC 2822 parser. -/
def parse_email_date (utf8 : List Nat → Option String)
    (rfc2822 : String → Option Int) (raw : List Nat) : Option Int :=
  match utf8 raw with
  | none => none
  | some text => findDateLine rfc2822 (rustLines text)

/-- Embeds `imap_types::search::SearchKey` restricted to the shapes the
handler distinguishes; the constructors after `not` are the leaves that
fall into the `_ => true` arm of `matches_key`. -/
inductive SearchKey where
  | all
  | unseen
  | seen
  | since (d : Int)
  | before (d : Int)
  | and (ks : List SearchKey)
  | or (a b : SearchKey)
  | not (k : SearchKey)
  | answered
  | deletedKey
  | draft
  | flagged
  | recent
  | newKey
  | oldKey
  | bcc (s : String)
  | cc (s : String)
  | fromKey (s : String)
  | toKey (s : String)
  | subject (s : String)
  | text (s : String)
  | body (s : String)
  | header (f v : String)
  | keyword (s : String)
  | larger (n : Nat)
  | smaller (n : Nat)
  | uid

mutual
/-- Embeds `matches_key` (`uid_search.rs` lines 64-78), including the
permissive `_ => true` fallback for unrecognized criteria. -/
def matches_key (utf8 : List Nat → Option String)
    (rfc2822 : String → Option Int) (email : TestEmail) :
    SearchKey → Bool
  | .all => true
  | .unseen => !email.seen
  | .seen => email.seen
  | .since d =>
    match parse_email_date utf8 rfc2822 email.raw with
    | some x => decide (x ≥ d)
    | none => false
  | .before d =>
    match parse_email_date utf8 rfc2822 email.raw with
    | some x => decide (x < d)
    | none => false
  | .and ks => matches_all utf8 rfc2822 email ks
  | .or a b =>
    matches_key utf8 rfc2822 email a || matches_key utf8 rfc2822 email b
  | .not k => !matches_key utf8 rfc2822 email k
  | _ => true

/-- Embeds `keys.iter().all(|k| matches_key(email, k))` for `SearchKey::And`. -/
def matches_all (utf8 : List Nat → Option String)
    (rfc2822 : String → Option Int) (email : TestEmail) :
    List SearchKey → Bool
  | [] => true
  | k :: ks =>
    matches_key utf8 rfc2822 email k && matches_all utf8 rfc2822 email ks
end

/-- The search-key shapes named by an explicit arm of `matches_key`. -/
def isRecognizedKey : SearchKey → Bool
  | .all | .unseen | .seen | .since _ | .before _
  | .and _ | .or _ _ | .not _ => true
  | _ => false

/-- Claim C4: For a message whose extracted date is exactly `d`,
`SINCE d` matches and `BEFORE d` does not; in general `SINCE`
compares with `≥` and `BEFORE` with `<` against the extracted date. -/
theorem since_inclusive_before_exclusive (utf8 : List Nat → Option String)
    (rfc2822 : String → Option Int) (email : TestEmail) (d : Int)
    (h : parse_email_date utf8 rfc2822 email.raw = some d) :
    matches_key utf8 rfc2822 email (.since d) = true ∧
    matches_key utf8 rfc2822 email (.before d) = false ∧
    (∀ b : Int, matches_key utf8 rfc2822 email (.since b) = decide (d ≥ b)) ∧
    (∀ b : Int, matches_key utf8 rfc2822 email (.before b) = decide (d < b)) := by
  refine ⟨?_, ?_, ?_, ?_⟩ <;> try intro b
  all_goals simp [matches_key, h]

/-- Claim C5: A message with no parseable date never matches `SINCE d`
or `BEFORE d`, for any bound `d`. -/
theorem no_date_never_matches (utf8 : List Nat → Option String)
    (rfc2822 : String → Option Int) (email : TestEmail)
    (h : parse_email_date utf8 rfc2822 email.raw = none) (d : Int) :
    matches_key utf8 rfc2822 email (.since d) = false ∧
    matches_key utf8 rfc2822 email (.before d) = false := by
  constructor <;> simp [matches_key, h]

/-- Claim C7: Every search-key leaf not handled by a recognized arm
evaluates to `true` (permissive fallback). -/
theorem unrecognized_key_matches (utf8 : List Nat → Option String)
    (rfc2822 : String → Option Int) (email : TestEmail) (k : SearchKey)
    (h : isRecognizedKey k = false) :
    matches_key utf8 rfc2822 email k = true := by
  cases k <;> first
    | rfl
    | (simp [isRecognizedKey] at h)

/-- A concrete email whose payload decodes to a text with a `Date:`
header. -/
def wDatedEmail : TestEmail := ⟨1, false, false, [68]⟩

/-- A UTF-8 decoder that yields a one-line text with a `Date:` header. -/
def wUtf8d : List Nat → Option String := fun _ => some "Date: x"

/-- An RFC 2822 parser returning day 5 on every input. -/
def wParse5 : String → Option Int := fun _ => some 5

/-- A UTF-8 decoder yielding a text without any `Date:` header. -/
def wUtf8nd : List Nat → Option String :=
  fun _ => some "From: a@b.com\r\nSubject: T"

/-- Witness for C4 at a concrete email dated exactly day 5. -/
theorem since_before_witness :
    parse_email_date wUtf8d wParse5 wDatedEmail.raw = some 5 ∧
    matches_key wUtf8d wParse5 wDatedEmail (.since 5) = true ∧
    matches_key wUtf8d wParse5 wDatedEmail (.before 5) = false :=
  ⟨by decide,
   (since_inclusive_before_exclusive wUtf8d wParse5 wDatedEmail 5 (by decide)).1,
   (since_inclusive_before_exclusive wUtf8d wParse5 wDatedEmail 5 (by decide)).2.1⟩

/-- Witness for C5 at a concrete email lacking a `Date:` header, with a
very early bound. -/
theorem no_date_witness :
    parse_email_date wUtf8nd wParse5 wDatedEmail.raw = none ∧
    matches_key wUtf8nd wParse5 wDatedEmail (.since (-100000)) = false :=
  ⟨by decide,
   (no_date_never_matches wUtf8nd wParse5 wDatedEmail (by decide) (-100000)).1⟩

/-- Witness for C7 at the concrete unrecognized leaf `ANSWERED`. -/
theorem unrecognized_witness :
    isRecognizedKey .answered = false ∧
    matches_key wUtf8d wParse5 wDatedEmail .answered = true :=
  ⟨rfl, unrecognized_key_matches wUtf8d wParse5 wDatedEmail .answered rfl⟩

/-! ### UID STORE (`handlers/uid_store.rs`) -/

/-- Embeds `imap_types::flag::Flag`. -/
inductive Flag where
  | seen
  | answered
  | flagged
  | deleted
  | draft
  | keyword (s : String)
  | extensionFlag (s : String)
deriving DecidableEq

/-- Embeds `imap_types::flag::StoreType`. -/
inductive StoreType where
  | add
  | remove
  | replace
deriving DecidableEq

/-- Embeds `imap_types::flag::StoreResponse`. -/
inductive StoreResponse where
  | answer
  | silent
deriving DecidableEq

/-- Embeds `args.flags.iter().any(|f| matches!(f, Flag::Seen))` from
`uid_store.rs` line 72. -/
def wantsSeen (flags : List Flag) : Bool :=
  flags.any fun f => match f with | .seen => true | _ => false

/-- Embeds `args.flags.iter().any(|f| matches!(f, Flag::Deleted))` from
`uid_store.rs` line 73. -/
def wantsDeleted (flags : List Flag) : Bool :=
  flags.any fun f => match f with | .deleted => true | _ => false

/-- The per-email flag mutation of `handle_uid_store` (the
`match args.kind` block): add / remove / replace on `seen` and
`deleted` only. -/
def applyStoreKind (kind : StoreType) (ws wd : Bool) (e : TestEmail) :
    TestEmail :=
  match kind with
  | .add =>
    { e with seen := if ws then true else e.seen,
             deleted := if wd then true else e.deleted }
  | .remove =>
    { e with seen := if ws then false else e.seen,
             deleted := if wd then false else e.deleted }
  | .replace => { e with seen := ws, deleted := wd }

/-- The `current` flag list pushed for the response: `\Seen` if seen,
then `\Deleted` if deleted. -/
def currentFlags (e : TestEmail) : List String :=
  (if e.seen then ["\\Seen"] else []) ++ (if e.deleted then ["\\Deleted"] else [])

/-- One iteration of the `for uid in uids` loop of `handle_uid_store`:
find the first email with the given UID
(`iter_mut().enumerate().find(|(_, e)| e.uid == uid)`), mutate it, and
report `(idx + 1, uid, resulting flags)`; absent UIDs are skipped.
`idx` is the enumeration counter. -/
def storeOne (kind : StoreType) (ws wd : Bool) (uid : Nat) (idx : Nat) :
    List TestEmail → List TestEmail × Option (Nat × Nat × List String)
  | [] => ([], none)
  | e :: es =>
    if e.uid == uid then
      let e2 := applyStoreKind kind ws wd e
      (e2 :: es, some (idx + 1, uid, currentFlags e2))
    else
      let r := storeOne kind ws wd uid (idx + 1) es
      (e :: r.1, r.2)

/-- The whole mutation loop of `handle_uid_store` (`uid_store.rs` lines
96-154): the updated email list and the `results` entries in emission
order. -/
def storeRun (kind : StoreType) (ws wd : Bool) (emails : List TestEmail) :
    List Nat → List TestEmail × List (Nat × Nat × List String)
  | [] => (emails, [])
  | uid :: uids =>
    let r := storeOne kind ws wd uid 0 emails
    let rest := storeRun kind ws wd r.1 uids
    (rest.1, (match r.2 with | some entry => [entry] | none => []) ++ rest.2)

/-- Embeds the state change and collected results of `handle_uid_store`
for a folder's email list. -/
def handle_uid_store (kind : StoreType) (flags : List Flag)
    (uids : List Nat) (emails : List TestEmail) :
    List TestEmail × List (Nat × Nat × List String) :=
  storeRun kind (wantsSeen flags) (wantsDeleted flags) emails uids

/-- The untagged `* <seq> FETCH (UID <uid> FLAGS (..))` lines written
after the lock is released: none when silent, one per result entry
otherwise. -/
def storeLines (response : StoreResponse)
    (results : List (Nat × Nat × List String)) : List String :=
  match response with
  | .silent => []
  | .answer =>
    results.map fun r =>
      "* " ++ toString r.1 ++ " FETCH (UID " ++ toString r.2.1 ++
        " FLAGS (" ++ String.intercalate " " r.2.2 ++ "))\r\n"

/-! #### Helper lemmas for STORE -/

theorem applyStoreKind_uid (kind : StoreType) (ws wd : Bool) (e : TestEmail) :
    (applyStoreKind kind ws wd e).uid = e.uid := by
  cases kind <;> rfl

theorem storeOne_emails_id (kind : StoreType) (ws wd : Bool)
    (hid : ∀ e, applyStoreKind kind ws wd e = e) (uid idx : Nat)
    (emails : List TestEmail) :
    (storeOne kind ws wd uid idx emails).1 = emails := by
  induction emails generalizing idx with
  | nil => rfl
  | cons e es ih =>
    simp only [storeOne]
    by_cases h : (e.uid == uid) = true
    · simp [h, hid e]
    · simp only [Bool.not_eq_true] at h
      simp [h, ih]

theorem storeRun_emails_id (kind : StoreType) (ws wd : Bool)
    (hid : ∀ e, applyStoreKind kind ws wd e = e) (uids : List Nat)
    (emails : List TestEmail) :
    (storeRun kind ws wd emails uids).1 = emails := by
  induction uids generalizing emails with
  | nil => rfl
  | cons u us ih =>
    simp only [storeRun]
    rw [storeOne_emails_id kind ws wd hid u 0 emails, ih]

theorem storeOne_map_uid (kind : StoreType) (ws wd : Bool) (uid idx : Nat)
    (emails : List TestEmail) :
    (storeOne kind ws wd uid idx emails).1.map TestEmail.uid =
      emails.map TestEmail.uid := by
  induction emails generalizing idx with
  | nil => rfl
  | cons e es ih =>
    simp only [storeOne]
    by_cases h : (e.uid == uid) = true
    · simp [h, applyStoreKind_uid]
    · simp only [Bool.not_eq_true] at h
      simp [h, ih]

theorem storeOne_found (kind : StoreType) (ws wd : Bool) (uid idx : Nat)
    (emails : List TestEmail) :
    (storeOne kind ws wd uid idx emails).2.isSome =
      emails.any (fun e => e.uid == uid) := by
  induction emails generalizing idx with
  | nil => rfl
  | cons e es ih =>
    simp only [storeOne]
    by_cases h : (e.uid == uid) = true
    · simp [h]
    · simp only [Bool.not_eq_true] at h
      simp [h, ih]

theorem any_uid_of_map_uid (emails emails2 : List TestEmail) (uid : Nat)
    (h : emails.map TestEmail.uid = emails2.map TestEmail.uid) :
    emails.any (fun e => e.uid == uid) = emails2.any (fun e => e.uid == uid) := by
  have h1 : ∀ l : List TestEmail,
      l.any (fun e => e.uid == uid) = (l.map TestEmail.uid).any (· == uid) := by
    intro l
    induction l with
    | nil => rfl
    | cons e es ih => simp [ih]
  rw [h1, h1, h]

theorem storeRun_results_length (kind : StoreType) (ws wd : Bool)
    (uids : List Nat) (emails : List TestEmail) :
    (storeRun kind ws wd emails uids).2.length =
      (uids.filter fun u => emails.any fun e => e.uid == u).length := by
  induction uids generalizing emails with
  | nil => rfl
  | cons u us ih =>
    simp only [storeRun, List.length_append, List.filter]
    have hfound := storeOne_found kind ws wd u 0 emails
    have hmap := storeOne_map_uid kind ws wd u 0 emails
    have hrest : (storeRun kind ws wd (storeOne kind ws wd u 0 emails).1 us).2.length
        = (us.filter fun v => emails.any fun e => e.uid == v).length := by
      rw [ih]
      congr 1
      apply List.filter_congr
      intro v _
      exact any_uid_of_map_uid _ _ v hmap
    cases hcase : (storeOne kind ws wd u 0 emails).2 with
    | none =>
      have : emails.any (fun e => e.uid == u) = false := by
        rw [← hfound, hcase]; rfl
      simp [this, hrest]
    | some entry =>
      have : emails.any (fun e => e.uid == u) = true := by
        rw [← hfound, hcase]; rfl
      simp [this, hrest]
      omega

theorem storeOne_flags_strings (kind : StoreType) (ws wd : Bool)
    (uid idx : Nat) (emails : List TestEmail) (entry : Nat × Nat × List String)
    (h : (storeOne kind ws wd uid idx emails).2 = some entry) :
    ∀ s ∈ entry.2.2, s = "\\Seen" ∨ s = "\\Deleted" := by
  induction emails generalizing idx with
  | nil => simp [storeOne] at h
  | cons e es ih =>
    simp only [storeOne] at h
    by_cases hc : (e.uid == uid) = true
    · simp only [hc, if_true] at h
      injection h with h2
      subst h2
      intro s hs
      simp only [currentFlags, List.mem_append] at hs
      rcases hs with h1 | h1
      · left
        by_cases hb : (applyStoreKind kind ws wd e).seen = true
        · simp [hb] at h1; exact h1
        · simp only [Bool.not_eq_true] at hb
          simp [hb] at h1
      · right
        by_cases hb : (applyStoreKind kind ws wd e).deleted = true
        · simp [hb] at h1; exact h1
        · simp only [Bool.not_eq_true] at hb
          simp [hb] at h1
    · simp only [Bool.not_eq_true] at hc
      simp only [hc] at h
      exact ih (idx + 1) h

theorem storeRun_flags_strings (kind : StoreType) (ws wd : Bool)
    (uids : List Nat) (emails : List TestEmail) :
    ∀ r ∈ (storeRun kind ws wd emails uids).2,
      ∀ s ∈ r.2.2, s = "\\Seen" ∨ s = "\\Deleted" := by
  induction uids generalizing emails with
  | nil => simp [storeRun]
  | cons u us ih =>
    intro r hr
    simp only [storeRun, List.mem_append] at hr
    rcases hr with hr | hr
    · cases hcase : (storeOne kind ws wd u 0 emails).2 with
      | none => rw [hcase] at hr; simp at hr
      | some entry =>
        rw [hcase] at hr
        simp only [List.mem_singleton] at hr
        rw [hr]
        exact storeOne_flags_strings kind ws wd u 0 emails entry hcase
    · exact ih _ r hr

theorem map_congr_fun {α β : Type} (l : List α) (f g : α → β)
    (h : ∀ a ∈ l, f a = g a) : l.map f = l.map g := by
  induction l with
  | nil => rfl
  | cons x xs ih =>
    simp only [List.map]
    rw [h x (by simp), ih fun a ha => h a (by simp [ha])]

theorem map_if_no_match (uid : Nat) (g : TestEmail → TestEmail)
    (es : List TestEmail) (h : ∀ e ∈ es, e.uid ≠ uid) :
    es.map (fun e => if e.uid == uid then g e else e) = es := by
  induction es with
  | nil => rfl
  | cons e es ih =>
    have he : (e.uid == uid) = false := by
      simp [h e (by simp)]
    simp only [List.map, he, Bool.false_eq_true, if_false]
    rw [ih fun a ha => h a (by simp [ha])]

theorem storeOne_eq_map_of_nodup (kind : StoreType) (ws wd : Bool)
    (uid idx : Nat) (emails : List TestEmail)
    (hnd : (emails.map TestEmail.uid).Nodup) :
    (storeOne kind ws wd uid idx emails).1 =
      emails.map (fun e => if e.uid == uid then applyStoreKind kind ws wd e
        else e) := by
  induction emails generalizing idx with
  | nil => rfl
  | cons e es ih =>
    simp only [List.map, List.nodup_cons] at hnd
    by_cases hc : e.uid = uid
    · have hb : (e.uid == uid) = true := by simp [hc]
      simp only [storeOne, hb, if_true, List.map]
      rw [map_if_no_match uid _ es]
      intro e2 he2 hcontra
      exact hnd.1 (by
        rw [← hcontra] at hc
        exact hc ▸ List.mem_map_of_mem TestEmail.uid he2)
    · have hb : (e.uid == uid) = false := by simp [hc]
      simp only [storeOne, hb, Bool.false_eq_true, if_false, List.map]
      rw [ih (idx + 1) hnd.2]

theorem map_uid_map_if (uid : Nat) (kind : StoreType) (ws wd : Bool)
    (emails : List TestEmail) :
    (emails.map (fun e => if e.uid == uid then applyStoreKind kind ws wd e
      else e)).map TestEmail.uid = emails.map TestEmail.uid := by
  rw [List.map_map]
  apply map_congr_fun
  intro e _
  by_cases hc : (e.uid == uid) = true <;>
    simp [hc, Function.comp, applyStoreKind_uid]

theorem storeRun_eq_map_of_nodup (kind : StoreType) (ws wd : Bool)
    (hidem : ∀ e, applyStoreKind kind ws wd (applyStoreKind kind ws wd e)
      = applyStoreKind kind ws wd e)
    (uids : List Nat) (emails : List TestEmail)
    (hnd : (emails.map TestEmail.uid).Nodup) :
    (storeRun kind ws wd emails uids).1 =
      emails.map (fun e => if uids.contains e.uid
        then applyStoreKind kind ws wd e else e) := by
  induction uids generalizing emails with
  | nil =>
    simp [storeRun]
  | cons u us ih =>
    simp only [storeRun]
    rw [storeOne_eq_map_of_nodup kind ws wd u 0 emails hnd]
    have hnd2 : ((emails.map (fun e => if e.uid == u
        then applyStoreKind kind ws wd e else e)).map TestEmail.uid).Nodup := by
      rw [map_uid_map_if]; exact hnd
    rw [ih _ hnd2, List.map_map]
    apply map_congr_fun
    intro e _
    by_cases hu : e.uid = u <;> by_cases hus : e.uid ∈ us <;>
      simp [Function.comp, hu, hus, applyStoreKind_uid, hidem]

/-- Claim C9: When the STORE flag set contains neither `\Seen` nor
`\Deleted`: add and remove leave every message unchanged, replace
clears both flags on every matched message, one result entry (hence,
unless silent, one untagged flags line) is still produced per matched
UID, and the reported flag lists only ever mention `\Seen` and
`\Deleted`. -/
theorem store_without_seen_deleted (kind : StoreType) (flags : List Flag)
    (uids : List Nat) (emails : List TestEmail)
    (hws : wantsSeen flags = false) (hwd : wantsDeleted flags = false)
    (hnd : (emails.map TestEmail.uid).Nodup) :
    ((kind = .add ∨ kind = .remove) →
      (handle_uid_store kind flags uids emails).1 = emails) ∧
    (handle_uid_store .replace flags uids emails).1 =
      emails.map (fun e => if uids.contains e.uid
        then { e with seen := false, deleted := false } else e) ∧
    (handle_uid_store kind flags uids emails).2.length =
      (uids.filter fun u => emails.any fun e => e.uid == u).length ∧
    (∀ r ∈ (handle_uid_store kind flags uids emails).2,
      ∀ s ∈ r.2.2, s = "\\Seen" ∨ s = "\\Deleted") ∧
    (storeLines .answer (handle_uid_store kind flags uids emails).2).length =
      (handle_uid_store kind flags uids emails).2.length ∧
    storeLines .silent (handle_uid_store kind flags uids emails).2 = [] := by
  unfold handle_uid_store
  rw [hws, hwd]
  refine ⟨?_, ?_, ?_, ?_, ?_, rfl⟩
  · intro hkind
    rcases hkind with rfl | rfl
    · exact storeRun_emails_id .add false false
        (fun e => by cases e; simp [applyStoreKind]) uids emails
    · exact storeRun_emails_id .remove false false
        (fun e => by cases e; simp [applyStoreKind]) uids emails
  · rw [storeRun_eq_map_of_nodup .replace false false (fun e => rfl)
      uids emails hnd]
    apply map_congr_fun
    intro e _
    rfl
  · exact storeRun_results_length kind false false uids emails
  · exact storeRun_flags_strings kind false false uids emails
  · simp [storeLines]

/-- Concrete email list for the C9 witness. -/
def wStoreEmails : List TestEmail := [⟨1, true, false, []⟩, ⟨3, false, true, []⟩]

/-- Witness for C9: adding only the unrecognized flag `\Flagged`
changes nothing. -/
theorem store_witness :
    wantsSeen [Flag.flagged] = false ∧ wantsDeleted [Flag.flagged] = false ∧
    (handle_uid_store .add [Flag.flagged] [1, 2] wStoreEmails).1 =
      wStoreEmails :=
  ⟨rfl, rfl,
   (store_without_seen_deleted .add [Flag.flagged] [1, 2] wStoreEmails
     rfl rfl (by decide)).1 (Or.inl rfl)⟩

/-! ### SELECT (`handlers/select.rs` and the dispatch in `server.rs`) -/

/-- Embeds the UIDNEXT computation of `handle_select` (`select.rs`
lines 39-46): `emails.iter().map(|e| e.uid).max().map_or(1, |max| max + 1)`.
`uid` is a `u32`, so the successor is computed modulo `2 ^ 32`: at
`max = u32::MAX` the addition `max + 1` is not representable (the
overflow-checked test profile panics there; a wrapping build yields 0),
which the `% 2 ^ 32` marks explicitly. -/
def uidnextOf (f : Folder) : Nat :=
  match (f.emails.map TestEmail.uid).max? with
  | none => 1
  | some m => (m + 1) % 2 ^ 32

/-- Embeds the UNSEEN computation of `handle_select` (`select.rs` lines
55-58): the 1-based position of the first unseen email, if any
(`emails.iter().position(|e| !e.seen)`, reported as `pos + 1`). -/
def unseenPos (f : Folder) : Option Nat :=
  (f.emails.findIdx? fun e => !e.seen).map (· + 1)

/-- Embeds `handle_select` (`select.rs`): the emitted response lines
and the returned selected-folder value (`Some(name)` on success,
`None` when the folder does not exist). -/
def handle_select (tag : String) (folder_name : String) (mb : Mailbox) :
    List String × Option String :=
  match mb.get_folder folder_name with
  | some folder =>
    (["* FLAGS (\\Seen \\Answered \\Flagged \\Deleted \\Draft)\r\n",
      "* " ++ toString folder.emails.length ++ " EXISTS\r\n",
      "* 0 RECENT\r\n",
      "* OK [UIDVALIDITY 1]\r\n",
      "* OK [UIDNEXT " ++ toString (uidnextOf folder) ++ "]\r\n",
      "* OK [PERMANENTFLAGS (\\Seen \\Deleted)] Limited\r\n"]
      ++ (match unseenPos folder with
          | some p => ["* OK [UNSEEN " ++ toString p ++ "]\r\n"]
          | none => [])
      ++ [tag ++ " OK [READ-WRITE] SELECT completed\r\n"],
     some folder_name)
  | none => ([tag ++ " NO Folder not found\r\n"], none)

/-- Embeds the SELECT arm of the command loop in `server.rs`
(`selected_folder = handle_select(tag, rest, mailbox, ..)`): the
connection's selected-folder state after the command is whatever
`handle_select` returns; the prior selection is overwritten. -/
def selectDispatch (mb : Mailbox) (_selected : Option String)
    (tag folder_name : String) : Option String :=
  (handle_select tag folder_name mb).2

/-! #### Helper lemmas for SELECT -/

theorem findIdx?_go_spec (p : TestEmail → Bool) (l : List TestEmail)
    (s i : Nat) (h : l.findIdx? p s = some i) :
    s ≤ i ∧ (∃ e, l.get? (i - s) = some e ∧ p e = true) ∧
    ∀ j, j < i - s → ∀ e, l.get? j = some e → p e = false := by
  induction l generalizing s with
  | nil => simp [List.findIdx?] at h
  | cons x xs ih =>
    rw [List.findIdx?_cons] at h
    by_cases hx : p x = true
    · simp only [hx, if_true] at h
      injection h with h
      subst h
      exact ⟨Nat.le_refl s, ⟨x, by simp, hx⟩,
        fun j hj e he => absurd hj (by simp)⟩
    · simp only [Bool.not_eq_true] at hx
      simp only [hx, Bool.false_eq_true, if_false] at h
      obtain ⟨hs, ⟨e, he, hpe⟩, hlt⟩ := ih (s + 1) h
      refine ⟨by omega, ⟨e, ?_, hpe⟩, ?_⟩
      · have : i - s = (i - (s + 1)) + 1 := by omega
        rw [this]
        simpa using he
      · intro j hj e2 he2
        cases j with
        | zero =>
          injection he2 with he2
          rw [← he2]; exact hx
        | succ j =>
          refine hlt j (by omega) e2 ?_
          simpa using he2

theorem findIdx?_go_isSome (p : TestEmail → Bool) (l : List TestEmail)
    (s : Nat) : (l.findIdx? p s).isSome = l.any p := by
  induction l generalizing s with
  | nil => rfl
  | cons x xs ih =>
    rw [List.findIdx?_cons]
    by_cases hx : p x = true
    · simp [hx]
    · simp only [Bool.not_eq_true] at hx
      simp [hx, ih]

/-- Claim C10 (amended): on SELECT of an existing folder all of whose
UIDs are strictly below `u32::MAX` (so the u32 successor of the maximum
is representable), the reported UIDNEXT is 1 for an empty folder and
otherwise one more than the maximum UID present (strictly above every
UID, and successor of one); the UNSEEN line is produced iff some
message is unseen, and then carries the 1-based position of the first
unseen message. -/
theorem select_metadata (f : Folder)
    (hbound : ∀ e ∈ f.emails, e.uid < 2 ^ 32 - 1) :
    (f.emails = [] → uidnextOf f = 1) ∧
    (∀ e ∈ f.emails, e.uid < uidnextOf f) ∧
    (f.emails ≠ [] → ∃ e ∈ f.emails, uidnextOf f = e.uid + 1) ∧
    ((unseenPos f).isSome = f.emails.any fun e => !e.seen) ∧
    (∀ p, unseenPos f = some p → 1 ≤ p ∧
      (∃ e, f.emails.get? (p - 1) = some e ∧ e.seen = false) ∧
      ∀ j, j < p - 1 → ∀ e, f.emails.get? j = some e → e.seen = true) := by
  refine ⟨?_, ?_, ?_, ?_, ?_⟩
  · intro h
    simp [uidnextOf, h]
  · intro e he
    unfold uidnextOf
    cases hmax : (f.emails.map TestEmail.uid).max? with
    | none =>
      rw [List.max?_eq_none_iff, List.map_eq_nil_iff] at hmax
      rw [hmax] at he
      simp at he
    | some m =>
      have hle := (List.max?_le_iff (fun a b c => Nat.max_le) hmax).1
        (Nat.le_refl m) e.uid (List.mem_map_of_mem TestEmail.uid he)
      have hmem := List.max?_mem (fun a b => max_choice a b) hmax
      obtain ⟨e0, he0, heq0⟩ := List.mem_map.mp hmem
      have hmlt : m < 2 ^ 32 - 1 := heq0 ▸ hbound e0 he0
      have hmod : (m + 1) % 2 ^ 32 = m + 1 := Nat.mod_eq_of_lt (by omega)
      show e.uid < (m + 1) % 2 ^ 32
      rw [hmod]
      omega
  · intro h
    unfold uidnextOf
    cases hmax : (f.emails.map TestEmail.uid).max? with
    | none =>
      rw [List.max?_eq_none_iff, List.map_eq_nil_iff] at hmax
      exact absurd hmax h
    | some m =>
      have hmem := List.max?_mem (fun a b => max_choice a b) hmax
      obtain ⟨e, he, heq⟩ := List.mem_map.mp hmem
      have hmlt : m < 2 ^ 32 - 1 := heq ▸ hbound e he
      have hmod : (m + 1) % 2 ^ 32 = m + 1 := Nat.mod_eq_of_lt (by omega)
      refine ⟨e, he, ?_⟩
      show (m + 1) % 2 ^ 32 = e.uid + 1
      rw [hmod, heq]
  · unfold unseenPos
    rw [← findIdx?_go_isSome (fun e => !e.seen) f.emails 0]
    cases f.emails.findIdx? (fun e => !e.seen) <;> rfl
  · intro p hp
    unfold unseenPos at hp
    rw [Option.map_eq_some'] at hp
    obtain ⟨i, hi, rfl⟩ := hp
    obtain ⟨hs, ⟨e, he, hpe⟩, hbefore⟩ := findIdx?_go_spec _ f.emails 0 i hi
    refine ⟨by omega, ⟨e, ?_, ?_⟩, ?_⟩
    · simpa using he
    · simpa using hpe
    · intro j hj e2 he2
      have := hbefore j (by omega) e2 he2
      simpa using this

/-- A concrete folder for the C10 witness: UIDs 5, 10, 7; first unseen
message at 1-based position 3. -/
def wSelFolder : Folder :=
  ⟨"INBOX", [⟨5, true, false, []⟩, ⟨10, true, false, []⟩, ⟨7, false, false, []⟩]⟩

/-- Witness for the amended C10 at a concrete folder. -/
theorem select_metadata_witness :
    wSelFolder.emails ≠ [] ∧
    ∃ e ∈ wSelFolder.emails, uidnextOf wSelFolder = e.uid + 1 :=
  ⟨by decide, (select_metadata wSelFolder (by decide)).2.2.1 (by decide)⟩

/-- Folder for the C10 counterexample: a single message carrying the
largest representable UID, `u32::MAX = 2 ^ 32 - 1`. -/
def cexFolder10 : Folder := ⟨"INBOX", [⟨2 ^ 32 - 1, true, false, []⟩]⟩

/-- Claim C10 counterexample: at a folder whose maximum UID is
`u32::MAX`, the u32 successor `max + 1` is not representable — the
reported UIDNEXT wraps to 0 (the overflow-checked test build panics
instead) and in particular does not equal the maximum UID plus one. -/
theorem uidnext_wraps_at_u32_max :
    (cexFolder10.emails.map TestEmail.uid).max? = some (2 ^ 32 - 1) ∧
    uidnextOf cexFolder10 = 0 ∧
    uidnextOf cexFolder10 ≠ (2 ^ 32 - 1) + 1 := by
  refine ⟨by decide, by decide, by decide⟩

/-- A mailbox holding only INBOX, for the C3 counterexample. -/
def cexMailbox3 : Mailbox := ⟨[⟨"INBOX", []⟩]⟩

/-- Claim C3 counterexample: With "INBOX" previously selected, SELECT on
the nonexistent folder "Gone" answers a tagged NO but the connection's
selected-folder state does not stay `some "INBOX"`: the dispatch loop
overwrites it with `handle_select`'s return value `none`. -/
theorem select_missing_clears_selection :
    cexMailbox3.get_folder "Gone" = none ∧
    (handle_select "A1" "Gone" cexMailbox3).1 = ["A1 NO Folder not found\r\n"] ∧
    selectDispatch cexMailbox3 (some "INBOX") "A1" "Gone" ≠ some "INBOX" := by
  refine ⟨by decide, by decide, by decide⟩

/-- Claim C3 (amended): SELECT on a folder absent from the mailbox yields
the tagged NO completion and sets the connection's selected-folder
state to `none`, clearing any prior selection. -/
theorem select_missing_folder (mb : Mailbox) (prior : Option String)
    (tag name : String) (h : mb.get_folder name = none) :
    (handle_select tag name mb).1 = [tag ++ " NO Folder not found\r\n"] ∧
    selectDispatch mb prior tag name = none := by
  unfold selectDispatch handle_select
  rw [h]
  exact ⟨rfl, rfl⟩

/-- Witness for the amended C3 at a concrete mailbox and prior
selection. -/
theorem select_missing_folder_witness :
    cexMailbox3.get_folder "Trash" = none ∧
    selectDispatch cexMailbox3 (some "INBOX") "A2" "Trash" = none :=
  ⟨by decide,
   (select_missing_folder cexMailbox3 (some "INBOX") "A2" "Trash" (by decide)).2⟩

/-! ### UID COPY (`handlers/uid_copy.rs`) -/

/-- Embeds `Mailbox::get_folder_mut` followed by an in-place mutation:
apply `g` to the first folder matching `p`, leave the rest alone. -/
def updateFirst (p : Folder → Bool) (g : Folder → Folder) :
    List Folder → List Folder
  | [] => []
  | f :: fs => if p f then g f :: fs else f :: updateFirst p g fs

/-- Embeds the mailbox mutation of `handle_uid_copy` (`uid_copy.rs`
lines 65-82): when both source and destination exist, clone the source
emails whose UID is in the requested set and push them onto the
destination folder; otherwise (after the BAD / NO TRYCREATE replies)
leave the mailbox unchanged. -/
def handle_uid_copy (mb : Mailbox) (src dest : String) (uids : List Nat) :
    Mailbox :=
  match mb.get_folder src with
  | none => mb
  | some fs =>
    match mb.get_folder dest with
    | none => mb
    | some _ =>
      let emails_to_copy := fs.emails.filter fun e => uids.contains e.uid
      ⟨updateFirst (folderPred dest)
        (fun f => ⟨f.name, f.emails ++ emails_to_copy⟩) mb.folders⟩

/-! #### Helper lemmas for `updateFirst` -/

/-- Position of the first folder matching `p` (the index
`get_folder_mut` mutates at). -/
def firstIdx (p : Folder → Bool) : List Folder → Option Nat
  | [] => none
  | f :: fs => if p f then some 0 else (firstIdx p fs).map (· + 1)

theorem updateFirst_get? (p : Folder → Bool) (g : Folder → Folder)
    (l : List Folder) (i : Nat) (hi : firstIdx p l = some i) :
    (updateFirst p g l).get? i = (l.get? i).map g ∧
    ∀ k, k ≠ i → (updateFirst p g l).get? k = l.get? k := by
  induction l generalizing i with
  | nil => simp [firstIdx] at hi
  | cons f fs ih =>
    by_cases hp : p f = true
    · simp only [firstIdx, hp, if_true] at hi
      injection hi with hi
      subst hi
      refine ⟨by simp [updateFirst, hp], ?_⟩
      intro k hk
      cases k with
      | zero => exact absurd rfl hk
      | succ k => simp [updateFirst, hp]
    · simp only [Bool.not_eq_true] at hp
      simp only [firstIdx, hp, Bool.false_eq_true, if_false,
        Option.map_eq_some'] at hi
      obtain ⟨i0, hi0, rfl⟩ := hi
      obtain ⟨hmain, hother⟩ := ih i0 hi0
      refine ⟨?_, ?_⟩
      · simp only [updateFirst, hp, Bool.false_eq_true, if_false]
        simpa using hmain
      · intro k hk
        cases k with
        | zero => simp [updateFirst, hp]
        | succ k =>
          simp only [updateFirst, hp, Bool.false_eq_true, if_false]
          simpa using hother k (by omega)

theorem updateFirst_length (p : Folder → Bool) (g : Folder → Folder)
    (l : List Folder) : (updateFirst p g l).length = l.length := by
  induction l with
  | nil => rfl
  | cons f fs ih =>
    by_cases hp : p f = true <;> simp [updateFirst, hp, ih]

theorem updateFirst_mem (p : Folder → Bool) (g : Folder → Folder)
    (l : List Folder) (f2 : Folder) (h : f2 ∈ updateFirst p g l) :
    f2 ∈ l ∨ ∃ f0, l.find? p = some f0 ∧ f2 = g f0 := by
  induction l with
  | nil => simp [updateFirst] at h
  | cons f fs ih =>
    by_cases hp : p f = true
    · simp only [updateFirst, hp, if_true] at h
      rcases List.mem_cons.mp h with rfl | h
      · exact Or.inr ⟨f, by simp [List.find?, hp], rfl⟩
      · exact Or.inl (by simp [h])
    · simp only [Bool.not_eq_true] at hp
      simp only [updateFirst, hp, Bool.false_eq_true, if_false] at h
      rcases List.mem_cons.mp h with rfl | h
      · exact Or.inl (by simp)
      · rcases ih h with h2 | ⟨f0, hf0, hf2⟩
        · exact Or.inl (by simp [h2])
        · exact Or.inr ⟨f0, by simp [List.find?, hp, hf0], hf2⟩

theorem find?_of_firstIdx (p : Folder → Bool) (l : List Folder)
    (i : Nat) (f : Folder) (hi : firstIdx p l = some i)
    (hf : l.get? i = some f) : l.find? p = some f := by
  induction l generalizing i with
  | nil => simp [firstIdx] at hi
  | cons x xs ih =>
    by_cases hp : p x = true
    · simp only [firstIdx, hp, if_true] at hi
      injection hi with hi
      subst hi
      simp only [List.get?] at hf
      injection hf with hf
      subst hf
      simp [List.find?, hp]
    · simp only [Bool.not_eq_true] at hp
      simp only [firstIdx, hp, Bool.false_eq_true, if_false,
        Option.map_eq_some'] at hi
      obtain ⟨i0, hi0, rfl⟩ := hi
      simp only [List.find?, hp]
      exact ih i0 hi0 (by simpa using hf)

/-- Claim C6 (amended): When the source and destination resolve to
distinct folders (positions `i ≠ j`), UID COPY leaves the source
folder untouched, appends to the destination exactly one copy of each
source email whose UID is in the requested set, and leaves every other
folder and the folder count unchanged. -/
theorem uid_copy_frame (mb : Mailbox) (src dest : String) (uids : List Nat)
    (i j : Nat) (fi fj : Folder) (hij : i ≠ j)
    (hi : firstIdx (folderPred src) mb.folders = some i)
    (hj : firstIdx (folderPred dest) mb.folders = some j)
    (hfi : mb.folders.get? i = some fi)
    (hfj : mb.folders.get? j = some fj) :
    (handle_uid_copy mb src dest uids).folders.get? i = some fi ∧
    (handle_uid_copy mb src dest uids).folders.get? j =
      some ⟨fj.name, fj.emails ++
        fi.emails.filter (fun e => uids.contains e.uid)⟩ ∧
    (∀ k, k ≠ j →
      (handle_uid_copy mb src dest uids).folders.get? k =
        mb.folders.get? k) ∧
    (handle_uid_copy mb src dest uids).folders.length =
      mb.folders.length := by
  have hsrc : mb.get_folder src = some fi :=
    find?_of_firstIdx (folderPred src) mb.folders i fi hi hfi
  have hdest : mb.get_folder dest = some fj :=
    find?_of_firstIdx (folderPred dest) mb.folders j fj hj hfj
  unfold handle_uid_copy
  rw [hsrc, hdest]
  obtain ⟨hmain, hother⟩ :=
    updateFirst_get? (folderPred dest)
      (fun f => ⟨f.name, f.emails ++
        fi.emails.filter (fun e => uids.contains e.uid)⟩) mb.folders j hj
  refine ⟨?_, ?_, ?_, ?_⟩
  · rw [hother i hij, hfi]
  · rw [hmain, hfj]
    rfl
  · intro k hk
    exact hother k hk
  · exact updateFirst_length _ _ mb.folders

/-- Mailbox for the C6 counterexample: one folder, copied onto itself. -/
def cexMailbox6 : Mailbox := ⟨[⟨"A", [⟨1, false, false, []⟩]⟩]⟩

/-- Claim C6 counterexample: A COPY whose destination is the selected
source folder itself ("A" → "A", an existing destination) changes the
source folder's message sequence: it gains a duplicate of UID 1, so the
claim's "source folder unchanged" fails as universally stated. -/
theorem copy_to_source_changes_source :
    (cexMailbox6.get_folder "A").isSome = true ∧
    ((handle_uid_copy cexMailbox6 "A" "A" [1]).get_folder "A").map
      (fun f => f.emails.length) = some 2 ∧
    (cexMailbox6.get_folder "A").map (fun f => f.emails.length) = some 1 ∧
    (handle_uid_copy cexMailbox6 "A" "A" [1]).get_folder "A" ≠
      cexMailbox6.get_folder "A" := by
  refine ⟨by decide, by decide, by decide, by decide⟩

/-- Concrete mailbox for the C6 witness. -/
def wMailbox6 : Mailbox :=
  ⟨[⟨"INBOX", [⟨1, false, false, [10]⟩, ⟨2, true, false, [20]⟩]⟩,
    ⟨"Archive", [⟨7, true, false, [30]⟩]⟩]⟩

/-- Witness for the amended C6 at a concrete mailbox: copy UID 1 from
INBOX to Archive. -/
theorem uid_copy_frame_witness :
    (handle_uid_copy wMailbox6 "INBOX" "Archive" [1]).folders.get? 0 =
      some ⟨"INBOX", [⟨1, false, false, [10]⟩, ⟨2, true, false, [20]⟩]⟩ ∧
    (handle_uid_copy wMailbox6 "INBOX" "Archive" [1]).folders.get? 1 =
      some ⟨"Archive", [⟨7, true, false, [30]⟩] ++
        ([⟨1, false, false, [10]⟩, ⟨2, true, false, [20]⟩] :
          List TestEmail).filter (fun e => ([1] : List Nat).contains e.uid)⟩ :=
  ⟨(uid_copy_frame wMailbox6 "INBOX" "Archive" [1] 0 1
      ⟨"INBOX", [⟨1, false, false, [10]⟩, ⟨2, true, false, [20]⟩]⟩
      ⟨"Archive", [⟨7, true, false, [30]⟩]⟩
      (by decide) (by decide) (by decide) (by decide) (by decide)).1,
   (uid_copy_frame wMailbox6 "INBOX" "Archive" [1] 0 1
      ⟨"INBOX", [⟨1, false, false, [10]⟩, ⟨2, true, false, [20]⟩]⟩
      ⟨"Archive", [⟨7, true, false, [30]⟩]⟩
      (by decide) (by decide) (by decide) (by decide) (by decide)).2.1⟩

/-! ### Sequences of mutating commands (for the UID-uniqueness
invariant) -/

/-- Embeds the mailbox mutation of `handle_expunge` at mailbox level:
check the folder exists, then purge its deleted messages in place. -/
def handle_expunge_mailbox (mb : Mailbox) (name : String) : Mailbox :=
  if (mb.get_folder name).isSome then
    ⟨updateFirst (folderPred name) (fun f => (handle_expunge f).1) mb.folders⟩
  else mb

/-- Embeds the mailbox mutation of `handle_uid_store` at mailbox level:
check the folder exists, then mutate flags of the matched UIDs in
place. -/
def handle_uid_store_mailbox (mb : Mailbox) (name : String)
    (kind : StoreType) (flags : List Flag) (uids : List Nat) : Mailbox :=
  if (mb.get_folder name).isSome then
    ⟨updateFirst (folderPred name)
      (fun f => ⟨f.name, (handle_uid_store kind flags uids f.emails).1⟩)
      mb.folders⟩
  else mb

/-- One mutating command against the mailbox: UID COPY, UID STORE, or
EXPUNGE, each with its selected/target folder and arguments. -/
inductive MailOp where
  | copy (src dest : String) (uids : List Nat)
  | store (folder : String) (kind : StoreType) (flags : List Flag)
      (uids : List Nat)
  | expunge (folder : String)

/-- Apply one command's mailbox mutation. -/
def applyOp (mb : Mailbox) : MailOp → Mailbox
  | .copy src dest uids => handle_uid_copy mb src dest uids
  | .store name kind flags uids =>
    handle_uid_store_mailbox mb name kind flags uids
  | .expunge name => handle_expunge_mailbox mb name

/-- Apply a sequence of commands front to back. -/
def applyOps (mb : Mailbox) : List MailOp → Mailbox
  | [] => mb
  | op :: ops => applyOps (applyOp mb op) ops

/-- Every folder's UIDs are pairwise distinct. -/
def uidsDistinct (mb : Mailbox) : Prop :=
  ∀ f ∈ mb.folders, (f.emails.map TestEmail.uid).Nodup

/-- A COPY is safe when no copied UID already occurs in the
destination folder. -/
def copySafe (mb : Mailbox) (src dest : String) (uids : List Nat) : Prop :=
  ∀ fs fd, mb.get_folder src = some fs → mb.get_folder dest = some fd →
    ∀ e ∈ fs.emails.filter (fun x => uids.contains x.uid),
      ∀ e2 ∈ fd.emails, e.uid ≠ e2.uid

/-- Safety of one command (only COPY is constrained). -/
def opSafe (mb : Mailbox) : MailOp → Prop
  | .copy src dest uids => copySafe mb src dest uids
  | _ => True

/-- Safety of a command sequence, each step judged in the state it
runs in. -/
def opsSafe (mb : Mailbox) : List MailOp → Prop
  | [] => True
  | op :: ops => opSafe mb op ∧ opsSafe (applyOp mb op) ops

/-! #### Per-operation preservation lemmas -/

theorem storeRun_map_uid (kind : StoreType) (ws wd : Bool)
    (uids : List Nat) (emails : List TestEmail) :
    (storeRun kind ws wd emails uids).1.map TestEmail.uid =
      emails.map TestEmail.uid := by
  induction uids generalizing emails with
  | nil => rfl
  | cons u us ih =>
    simp only [storeRun]
    rw [ih, storeOne_map_uid]

theorem store_preserves_distinct (mb : Mailbox) (name : String)
    (kind : StoreType) (flags : List Flag) (uids : List Nat)
    (h : uidsDistinct mb) :
    uidsDistinct (handle_uid_store_mailbox mb name kind flags uids) := by
  unfold handle_uid_store_mailbox
  by_cases hex : (mb.get_folder name).isSome = true
  · rw [if_pos hex]
    intro f2 hf2
    rcases updateFirst_mem _ _ _ f2 hf2 with hmem | ⟨f0, hf0, rfl⟩
    · exact h f2 hmem
    · show ((⟨f0.name, (handle_uid_store kind flags uids f0.emails).1⟩ :
        Folder).emails.map TestEmail.uid).Nodup
      unfold handle_uid_store
      rw [storeRun_map_uid]
      exact h f0 (List.mem_of_find?_eq_some hf0)
  · rw [if_neg hex]
    exact h

theorem expunge_preserves_distinct (mb : Mailbox) (name : String)
    (h : uidsDistinct mb) :
    uidsDistinct (handle_expunge_mailbox mb name) := by
  unfold handle_expunge_mailbox
  by_cases hex : (mb.get_folder name).isSome = true
  · rw [if_pos hex]
    intro f2 hf2
    rcases updateFirst_mem _ _ _ f2 hf2 with hmem | ⟨f0, hf0, rfl⟩
    · exact h f2 hmem
    · have hfilter := remove_deleted_eq_filter f0.emails
      show (((handle_expunge f0).1).emails.map TestEmail.uid).Nodup
      rw [show (handle_expunge f0).1.emails =
          remove_indices_rev f0.emails (deleted_indices f0.emails) from rfl,
        hfilter]
      exact ((List.filter_sublist f0.emails).map TestEmail.uid).nodup
        (h f0 (List.mem_of_find?_eq_some hf0))
  · rw [if_neg hex]
    exact h

theorem copy_preserves_distinct (mb : Mailbox) (src dest : String)
    (uids : List Nat) (h : uidsDistinct mb)
    (hsafe : copySafe mb src dest uids) :
    uidsDistinct (handle_uid_copy mb src dest uids) := by
  unfold handle_uid_copy
  cases hsrc : mb.get_folder src with
  | none => exact h
  | some fs =>
    cases hdest : mb.get_folder dest with
    | none => exact h
    | some fd =>
      intro f2 hf2
      rcases updateFirst_mem _ _ _ f2 hf2 with hmem | ⟨f0, hf0, rfl⟩
      · exact h f2 hmem
      · have hf0d : f0 = fd := by
          have : mb.get_folder dest = some f0 := hf0
          rw [hdest] at this
          injection this with this
          exact this.symm
        subst hf0d
        show ((f0.emails ++
          fs.emails.filter (fun e => uids.contains e.uid)).map
            TestEmail.uid).Nodup
        rw [List.map_append, List.nodup_append]
        refine ⟨h f0 (List.mem_of_find?_eq_some hf0), ?_, ?_⟩
        · exact ((List.filter_sublist fs.emails).map TestEmail.uid).nodup
            (h fs (List.mem_of_find?_eq_some hsrc))
        · intro u hu1 hu2
          obtain ⟨e2, he2, rfl⟩ := List.mem_map.mp hu1
          obtain ⟨e, he, heq⟩ := List.mem_map.mp hu2
          exact hsafe fs f0 hsrc hdest e he e2 he2 heq

/-- Claim C2 (amended): Starting from a mailbox whose folders all have
pairwise-distinct UIDs, any sequence of copy / store / expunge
operations preserves per-folder UID distinctness, provided each copy in
the sequence only copies UIDs absent from its destination folder at
that point (store and expunge are unconditionally safe). -/
theorem uid_uniqueness_preserved (ops : List MailOp) (mb : Mailbox)
    (h1 : uidsDistinct mb) (h2 : opsSafe mb ops) :
    uidsDistinct (applyOps mb ops) := by
  induction ops generalizing mb with
  | nil => exact h1
  | cons op ops ih =>
    obtain ⟨hop, hops⟩ := h2
    refine ih (applyOp mb op) ?_ hops
    cases op with
    | copy src dest uids => exact copy_preserves_distinct mb src dest uids h1 hop
    | store name kind flags uids =>
      exact store_preserves_distinct mb name kind flags uids h1
    | expunge name => exact expunge_preserves_distinct mb name h1

/-- Mailbox for the C2 counterexample: UID 1 exists in both folders
(uniqueness is per folder, so this is a legal start state). -/
def cexMailbox2 : Mailbox :=
  ⟨[⟨"A", [⟨1, false, false, []⟩]⟩, ⟨"B", [⟨1, false, false, []⟩]⟩]⟩

/-- Claim C2 counterexample: Both folders start with pairwise-distinct
UIDs, yet a single UID COPY of UID 1 from "A" to "B" leaves "B" with
two messages of UID 1. -/
theorem copy_breaks_uid_uniqueness :
    (∀ f ∈ cexMailbox2.folders, (f.emails.map TestEmail.uid).Nodup) ∧
    ¬ (∀ f ∈ (handle_uid_copy cexMailbox2 "A" "B" [1]).folders,
        (f.emails.map TestEmail.uid).Nodup) := by
  refine ⟨by decide, by decide⟩

/-- Mailbox and operation sequence for the C2 witness. -/
def wMailbox2 : Mailbox :=
  ⟨[⟨"A", [⟨1, false, false, []⟩]⟩, ⟨"B", [⟨2, true, false, []⟩]⟩]⟩

/-- The witness sequence: a safe copy, a store, an expunge. -/
def wOps2 : List MailOp :=
  [.copy "A" "B" [1], .store "B" .add [Flag.seen] [1], .expunge "A"]

/-- Witness for the amended C2 at a concrete mailbox and op sequence. -/
theorem uid_uniqueness_witness :
    uidsDistinct (applyOps wMailbox2 wOps2) := by
  refine uid_uniqueness_preserved wOps2 wMailbox2 (by unfold uidsDistinct; decide) ?_
  refine ⟨?_, trivial, trivial, trivial⟩
  intro fs fd hfs hfd
  rw [show wMailbox2.get_folder "A" =
      some ⟨"A", [⟨1, false, false, []⟩]⟩ from rfl,
    Option.some.injEq] at hfs
  rw [show wMailbox2.get_folder "B" =
      some ⟨"B", [⟨2, true, false, []⟩]⟩ from rfl,
    Option.some.injEq] at hfd
  subst hfs
  subst hfd
  decide

/-! ### UID FETCH (`handlers/uid_fetch.rs`) -/

/-- One piece of output written to the socket: a text line, or raw
bytes written with `write_bytes`. -/
inductive Chunk where
  | line (s : String)
  | bytes (b : List Nat)
deriving DecidableEq

/-- Embeds `folder.emails.iter().enumerate().find(|(_, e)| e.uid == uid)`
from `handle_uid_fetch`; `idx` is the enumeration counter. -/
def findEmailWithIdx (uid : Nat) (idx : Nat) :
    List TestEmail → Option (Nat × TestEmail)
  | [] => none
  | e :: es =>
    if e.uid == uid then some (idx, e)
    else findEmailWithIdx uid (idx + 1) es

/-- The `* <seq> FETCH (UID <uid> BODY[] {<len>}\r\n` header line; the
declared literal length is `n`. -/
def fetchHeaderLine (seq uid n : Nat) : String :=
  "* " ++ toString seq ++ " FETCH (UID " ++ toString uid ++
    " BODY[] \x7b" ++ toString n ++ "\x7d\r\n"

/-- One iteration of the fetch loop (`uid_fetch.rs` lines 62-87): if
the UID is present, emit the header line declaring `email.raw.len()`,
then exactly the raw bytes, then the closing `)` line; otherwise emit
nothing. -/
def fetchOne (emails : List TestEmail) (uid : Nat) : List Chunk :=
  match findEmailWithIdx uid 0 emails with
  | some (idx, e) =>
    [.line (fetchHeaderLine (idx + 1) uid e.raw.length),
     .bytes e.raw,
     .line ")\r\n"]
  | none => []

/-- Embeds the output of `handle_uid_fetch` over the requested UID
list (the `for uid in uids` loop). -/
def handle_uid_fetch (emails : List TestEmail) : List Nat → List Chunk
  | [] => []
  | u :: us => fetchOne emails u ++ handle_uid_fetch emails us

/-- Claim C8: For every requested UID present in the folder, the FETCH
output contains, consecutively: a header line declaring a literal
length equal to the byte length of the written payload, then exactly
that payload's bytes, then the closing `)` line — and the payload is
the message's raw bytes. -/
theorem fetch_literal_exact (emails : List TestEmail) (uids : List Nat)
    (u : Nat) (hu : u ∈ uids) (idx : Nat) (e : TestEmail)
    (hfind : findEmailWithIdx u 0 emails = some (idx, e)) :
    ∃ pre post body,
      handle_uid_fetch emails uids =
        pre ++ [Chunk.line (fetchHeaderLine (idx + 1) u body.length),
          Chunk.bytes body, Chunk.line ")\r\n"] ++ post ∧
      body = e.raw := by
  induction uids with
  | nil => simp at hu
  | cons v vs ih =>
    rcases List.mem_cons.mp hu with rfl | hu2
    · refine ⟨[], handle_uid_fetch emails vs, e.raw, ?_, rfl⟩
      simp only [handle_uid_fetch, fetchOne, hfind, List.nil_append]
    · obtain ⟨pre, post, body, heq, hbody⟩ := ih hu2
      refine ⟨fetchOne emails v ++ pre, post, body, ?_, hbody⟩
      simp only [handle_uid_fetch, heq, List.append_assoc]

/-- Concrete email for the C8 witness: UID 42, a 2-byte payload. -/
def wFetchEmail : TestEmail := ⟨42, false, false, [70, 111]⟩

/-- Witness for C8 at a concrete folder and UID set. -/
theorem fetch_literal_exact_witness :
    42 ∈ [42] ∧
    ∃ pre post body,
      handle_uid_fetch [wFetchEmail] [42] =
        pre ++ [Chunk.line (fetchHeaderLine (0 + 1) 42 body.length),
          Chunk.bytes body, Chunk.line ")\r\n"] ++ post ∧
      body = wFetchEmail.raw :=
  ⟨by decide,
   fetch_literal_exact [wFetchEmail] [42] 42 (by decide) 0 wFetchEmail
     (by decide)⟩

end FakeImap
